import Mathlib

/-!
Shallow embedding of the comment/reply counter-propagation logic of the
blogging backend (controllers `comment.controller.ts` and the blog
controller in the same file, models `comment.model.ts` and
`blog.model.ts`), together with theorems checking the natural-language
specification against it.

Modelling choices:
* MongoDB ObjectIds are `Nat`; the blog slug `blogId` is a `String`.
* The comment collection is a point store `Nat → Option Comment`
  (every operation on comments is a lookup/update/delete by `_id`).
* The blog collection is a `List Blog` because two handlers
  (`updateLike`, `deleteBlogByBlogId`) look a blog up by its slug.
* Counters are `Int` (Mongo `$inc` accepts negative deltas).
* The recursive ancestor walks (`_incrementalTotalReplies`,
  `_decrementTotalReplies`) are embedded with explicit fuel; each walk
  also returns the list of ids it passed to `findByIdAndUpdate`, so that
  "how many lookups were attempted" is observable.  A `findByIdAndUpdate`
  on a missing id updates nothing and the walk stops, exactly as the
  JavaScript `parentComment?.parent` chain does.
* Request handlers are total functions returning `Except Err DB`;
  the thrown `NotFoundError` / `CustomAPIError` exceptions of the source
  become `Err` values.
-/

namespace BlogApp

/-- Aggregate counters stored on a blog (`blog.model.ts`, `activity`). -/
structure Activity where
  totalLikes : Int
  totalReads : Int
  totalComments : Int
  totalParentComments : Int
deriving DecidableEq, Repr

/-- A blog document (`blog.model.ts`); `id` is the Mongo `_id`, `blogId`
the unique slug.  `likes` is the mongoose `Map` of user id to flag. -/
structure Blog where
  id : Nat
  blogId : String
  author : Nat
  isDraft : Bool
  activity : Activity
  likes : Nat → Option Bool

/-- A comment document (`comment.model.ts`).  Schema defaults:
`isReply = false`, `totalReplies = 0`, `isEdited = false`, `parent`
absent. -/
structure Comment where
  blogId : Nat
  blogAuthor : Nat
  content : String
  commentedBy : Nat
  isReply : Bool
  parent : Option Nat
  totalReplies : Int
  isEdited : Bool
deriving DecidableEq, Repr

/-- The slice of a user document touched by the blog handlers
(`accountInfo.totalPosts` and the `blogs` list). -/
structure User where
  totalPosts : Int
  blogs : List Nat
deriving DecidableEq, Repr

/-- The database state: blog collection, comment collection, user
collection. -/
structure DB where
  blogs : List Blog
  comments : Nat → Option Comment
  users : Nat → Option User

/-- Errors thrown by the handlers (`NotFoundError`, the FORBIDDEN
`CustomAPIError`, the INTERNAL_SERVER_ERROR `CustomAPIError`). -/
inductive Err where
  | notFound
  | forbidden
  | internal
deriving DecidableEq, Repr

/-- Store a comment under an id (a Mongo insert or whole-document
update). -/
def setComment (cs : Nat → Option Comment) (i : Nat) (c : Comment) :
    Nat → Option Comment :=
  fun j => if j = i then some c else cs j

/-- Delete the comment stored under an id (`findOneAndDelete`). -/
def removeComment (cs : Nat → Option Comment) (i : Nat) :
    Nat → Option Comment :=
  fun j => if j = i then none else cs j

/-- `Blog.findById`: first blog in the collection with the given
`_id`. -/
def findBlogById (bs : List Blog) (i : Nat) : Option Blog :=
  bs.find? (fun b => b.id == i)

/-- `Blog.findOne left brace blogId right brace`: first blog with the
given slug. -/
def findBlogBySlug (bs : List Blog) (slug : String) : Option Blog :=
  bs.find? (fun b => b.blogId == slug)

/-- `Blog.findByIdAndUpdate`: update the blog(s) stored under `_id = i`
(Mongo `_id`s are unique, so at most one document is affected in any
reachable state). -/
def mapBlogById (bs : List Blog) (i : Nat) (f : Blog → Blog) : List Blog :=
  bs.map (fun b => if b.id == i then f b else b)

/-- `_incrementalTotalReplies(commentId)` of `comment.controller.ts`:
`findByIdAndUpdate(commentId, $inc totalReplies 1)`, then recurse on the
returned document's `parent` when it is set.  Returns the updated store
and the list of ids a `findByIdAndUpdate` was issued for.  `fuel` bounds
the recursion depth of the embedding; every theorem below supplies
enough fuel for the chain at hand. -/
def incrementalTotalReplies :
    Nat → (Nat → Option Comment) → Nat → ((Nat → Option Comment) × List Nat)
  | 0, cs, _ => (cs, [])
  | fuel + 1, cs, commentId =>
    match cs commentId with
    | none => (cs, [commentId])
    | some c =>
      let cs1 := setComment cs commentId
        { c with totalReplies := c.totalReplies + 1 }
      match c.parent with
      | none => (cs1, [commentId])
      | some p =>
        let r := incrementalTotalReplies fuel cs1 p
        (r.1, commentId :: r.2)

/-- `_decrementTotalReplies(commentId, decrementCount)` of
`comment.controller.ts`: `findByIdAndUpdate(commentId, $inc totalReplies
decrementCount)`, then recurse on the returned document's `parent` when
it is set. -/
def decrementTotalReplies :
    Nat → (Nat → Option Comment) → Nat → Int →
      ((Nat → Option Comment) × List Nat)
  | 0, cs, _, _ => (cs, [])
  | fuel + 1, cs, commentId, d =>
    match cs commentId with
    | none => (cs, [commentId])
    | some c =>
      let cs1 := setComment cs commentId
        { c with totalReplies := c.totalReplies + d }
      match c.parent with
      | none => (cs1, [commentId])
      | some p =>
        let r := decrementTotalReplies fuel cs1 p d
        (r.1, commentId :: r.2)

/-- `createComment` handler: require the blog to exist, save a new
comment with the schema defaults (`isReply = false`, no `parent`,
`totalReplies = 0`, `isEdited = false`), then increment the blog's
`activity.totalComments` and `activity.totalParentComments` by 1.
`newId` is the fresh `_id` Mongo assigns to the saved document. -/
def createComment (db : DB) (newId blogId blogAuthor : Nat)
    (content : String) (userId : Nat) : Except Err DB :=
  match findBlogById db.blogs blogId with
  | none => .error .notFound
  | some _ =>
    let comment : Comment :=
      { blogId := blogId, blogAuthor := blogAuthor, content := content,
        commentedBy := userId, isReply := false, parent := none,
        totalReplies := 0, isEdited := false }
    let comments1 := setComment db.comments newId comment
    let blogs1 := mapBlogById db.blogs blogId (fun b =>
      { b with activity :=
          { b.activity with
              totalComments := b.activity.totalComments + 1,
              totalParentComments := b.activity.totalParentComments + 1 } })
    .ok { db with comments := comments1, blogs := blogs1 }

/-- `createReply` handler: require the target comment to exist, save a
new comment with `isReply = true` and `parent = commentId`, run
`_incrementalTotalReplies(commentId)`, then increment the owning blog's
`activity.totalComments` by 1. -/
def createReply (db : DB) (fuel newId commentId : Nat) (content : String)
    (userId : Nat) : Except Err DB :=
  match db.comments commentId with
  | none => .error .notFound
  | some target =>
    let reply : Comment :=
      { blogId := target.blogId, blogAuthor := target.blogAuthor,
        content := content, commentedBy := userId, isReply := true,
        parent := some commentId, totalReplies := 0, isEdited := false }
    let comments0 := setComment db.comments newId reply
    let comments1 := (incrementalTotalReplies fuel comments0 commentId).1
    let blogs1 := mapBlogById db.blogs target.blogId (fun b =>
      { b with activity :=
          { b.activity with
              totalComments := b.activity.totalComments + 1 } })
    .ok { db with comments := comments1, blogs := blogs1 }

/-- `deleteCommentById` handler: find the comment, check the caller is
its author or the blog author, delete the record, compute
`decrementBy = -(1 + comment.totalReplies)` from the record read before
deletion, run `_decrementTotalReplies(comment.parent, decrementBy)` when
the comment is a reply with a parent, and apply
`$inc totalComments decrementBy, totalParentComments (isReply ? 0 : -1)`
to the owning blog. -/
def deleteCommentById (db : DB) (fuel id userId : Nat) : Except Err DB :=
  match db.comments id with
  | none => .error .notFound
  | some comment =>
    if userId ≠ comment.commentedBy ∧ userId ≠ comment.blogAuthor then
      .error .forbidden
    else
      let comments0 := removeComment db.comments id
      let isReply : Bool := comment.isReply && comment.parent.isSome
      let decrementBy : Int := -(1 + comment.totalReplies)
      let comments1 :=
        match comment.parent with
        | some p =>
          if comment.isReply then
            (decrementTotalReplies fuel comments0 p decrementBy).1
          else comments0
        | none => comments0
      let blogs1 := mapBlogById db.blogs comment.blogId (fun b =>
        { b with activity :=
            { b.activity with
                totalComments := b.activity.totalComments + decrementBy,
                totalParentComments := b.activity.totalParentComments +
                  (if isReply then 0 else -1) } })
      .ok { db with comments := comments1, blogs := blogs1 }

/-- `updateCommentById` handler: find the comment, check the caller is
its author, then `$set` the new content and `isEdited = true`.  No
counter is touched. -/
def updateCommentById (db : DB) (id : Nat) (newContent : String)
    (userId : Nat) : Except Err DB :=
  match db.comments id with
  | none => .error .notFound
  | some comment =>
    if userId ≠ comment.commentedBy then
      .error .forbidden
    else
      let updatedComment : Comment :=
        { comment with content := newContent, isEdited := true }
      .ok { db with comments := setComment db.comments id updatedComment }

/-- `updateLike` handler (blog controller): find the blog by slug, read
`likes.get(userId)` (JavaScript truthiness: only a stored `true` counts),
toggle the entry, and write the new map back together with
`$inc totalLikes (isLiked ? -1 : 1)`. -/
def updateLike (db : DB) (slug : String) (userId : Nat) : Except Err DB :=
  match findBlogBySlug db.blogs slug with
  | none => .error .notFound
  | some blog =>
    let isLiked : Bool := (blog.likes userId).getD false
    let newLikes : Nat → Option Bool :=
      if isLiked then fun k => if k = userId then none else blog.likes k
      else fun k => if k = userId then some true else blog.likes k
    let upd : Blog → Blog := fun b =>
      let act := { b.activity with
        totalLikes := b.activity.totalLikes + (if isLiked then -1 else 1) }
      { b with likes := newLikes, activity := act }
    let blogs1 := mapBlogById db.blogs blog.id upd
    .ok { db with blogs := blogs1 }

/-- `Comment.deleteMany` keyed on a blog `_id`: every comment whose
`blogId` is the given id is removed; every other record is kept. -/
def deleteManyByBlogId (cs : Nat → Option Comment) (bid : Nat) :
    Nat → Option Comment :=
  fun j =>
    match cs j with
    | some c => if c.blogId = bid then none else some c
    | none => none

/-- `deleteBlogByBlogId` handler: delete the blog found by slug, update
the author's `totalPosts` and `blogs` list (an internal error aborts if
the author is missing), then `Comment.deleteMany` on every comment whose
`blogId` is the deleted blog's `_id`. -/
def deleteBlogByBlogId (db : DB) (slug : String) : Except Err DB :=
  match findBlogBySlug db.blogs slug with
  | none => .error .notFound
  | some blog =>
    let blogs1 := db.blogs.eraseP (fun b => b.blogId == slug)
    match db.users blog.author with
    | none => .error .internal
    | some u =>
      let users1 : Nat → Option User := fun j =>
        if j = blog.author then
          some { u with
            totalPosts := u.totalPosts + (if blog.isDraft then 0 else -1),
            blogs := u.blogs.filter (fun x => x != blog.id) }
        else db.users j
      let comments1 := deleteManyByBlogId db.comments blog.id
      .ok { blogs := blogs1, comments := comments1, users := users1 }

/-- `Chain cs i ids`: `ids` is the full ancestor chain of the comment
store `cs` starting at id `i` — every id on it is present in the store,
consecutive entries are linked by `parent`, and the last entry has no
`parent` (the top-level ancestor). -/
inductive Chain (cs : Nat → Option Comment) : Nat → List Nat → Prop where
  | last (i : Nat) (c : Comment) :
      cs i = some c → c.parent = none → Chain cs i [i]
  | cons (i : Nat) (c : Comment) (p : Nat) (ids : List Nat) :
      cs i = some c → c.parent = some p → Chain cs p ids →
      Chain cs i (i :: ids)

/-- The representation invariant of the comment collection: `isReply`
holds exactly when `parent` is set. -/
def WellFormedComments (cs : Nat → Option Comment) : Prop :=
  ∀ i c, cs i = some c → (c.isReply = true ↔ c.parent.isSome = true)

/-- The fields of a comment other than `totalReplies`; the ancestor
walks only change `totalReplies`, which is expressed by saying they
preserve this projection. -/
def commentShape (c : Comment) :
    Nat × Nat × String × Nat × Bool × Option Nat × Bool :=
  (c.blogId, c.blogAuthor, c.content, c.commentedBy, c.isReply,
    c.parent, c.isEdited)

/-! ### Concrete data used by the witnesses

A blog (`_id` 10, slug "travel", author 7) with a three-level comment
chain: comment 1 (top-level, `totalReplies` 2) ← reply 2 (`totalReplies`
1) ← reply 3 (leaf). -/

/-- Witness data: top-level comment `_id = 1`. -/
def cA : Comment :=
  { blogId := 10, blogAuthor := 7, content := "a", commentedBy := 5,
    isReply := false, parent := none, totalReplies := 2, isEdited := false }

/-- Witness data: reply `_id = 2`, child of 1. -/
def cB : Comment :=
  { blogId := 10, blogAuthor := 7, content := "b", commentedBy := 5,
    isReply := true, parent := some 1, totalReplies := 1, isEdited := false }

/-- Witness data: reply `_id = 3`, child of 2. -/
def cC : Comment :=
  { blogId := 10, blogAuthor := 7, content := "c", commentedBy := 6,
    isReply := true, parent := some 2, totalReplies := 0, isEdited := false }

/-- Witness data: the comment collection holding the three-level
chain. -/
def csW : Nat → Option Comment := fun j =>
  if j = 1 then some cA
  else if j = 2 then some cB
  else if j = 3 then some cC
  else none

/-- Witness data: the blog, consistent with the three comments. -/
def blogW : Blog :=
  { id := 10, blogId := "travel", author := 7, isDraft := false,
    activity := { totalLikes := 0, totalReads := 0, totalComments := 3,
                  totalParentComments := 1 },
    likes := fun _ => none }

/-- Witness data: the blog author's user document. -/
def userW : User := { totalPosts := 1, blogs := [10] }

/-- Witness data: the full database state. -/
def dbW : DB :=
  { blogs := [blogW], comments := csW,
    users := fun j => if j = 7 then some userW else none }

/-- Witness data: a comment whose `parent` points to a missing id
(dangling reference, as left behind by a deletion). -/
def cD : Comment :=
  { blogId := 10, blogAuthor := 7, content := "d", commentedBy := 5,
    isReply := true, parent := some 99, totalReplies := 0,
    isEdited := false }

/-- Witness data: a store holding only the dangling comment 8. -/
def csD : Nat → Option Comment := fun j =>
  if j = 8 then some cD else none

/-! ### Lemmas about the stores and the ancestor walks -/

theorem setComment_self (cs : Nat → Option Comment) (i : Nat) (c : Comment) :
    setComment cs i c i = some c := by
  simp [setComment]

theorem setComment_ne (cs : Nat → Option Comment) (i j : Nat) (c : Comment)
    (h : j ≠ i) : setComment cs i c j = cs j := by
  simp [setComment, h]

/-- Updating a record off the chain does not disturb the chain. -/
theorem Chain.mono {cs : Nat → Option Comment} {i : Nat} {ids : List Nat}
    (h : Chain cs i ids) (k : Nat) (x : Comment) (hk : k ∉ ids) :
    Chain (setComment cs k x) i ids := by
  induction h with
  | last i c hc hp =>
    have hik : i ≠ k := by
      intro he; exact hk (by simp [he])
    exact Chain.last i c (by rw [setComment_ne cs k i x hik]; exact hc) hp
  | cons i c p ids hc hp _ ih =>
    have hik : i ≠ k := by
      intro he; exact hk (by simp [he])
    have hk' : k ∉ ids := fun hmem => hk (List.mem_cons_of_mem _ hmem)
    exact Chain.cons i c p ids
      (by rw [setComment_ne cs k i x hik]; exact hc) hp (ih hk')

/-- Inversion for a nonempty chain: the head is the start id, it is
present in the store, and the tail is either empty (top-level reached)
or itself the chain of the parent. -/
theorem chain_cons_inv {cs : Nat → Option Comment} {i a : Nat}
    {rest : List Nat} (h : Chain cs i (a :: rest)) :
    a = i ∧ ∃ c, cs i = some c ∧
      ((rest = [] ∧ c.parent = none) ∨
        (∃ p, c.parent = some p ∧ Chain cs p rest)) := by
  cases h with
  | last i c hc hp => exact ⟨rfl, c, hc, Or.inl ⟨rfl, hp⟩⟩
  | cons i c p ids hc hp hr => exact ⟨rfl, c, hc, Or.inr ⟨p, hp, hr⟩⟩

/-- A chain is never empty. -/
theorem chain_ne_nil {cs : Nat → Option Comment} {i : Nat}
    (h : Chain cs i []) : False := by
  cases h

/-- Full specification of `_decrementTotalReplies` along an acyclic
ancestor chain: it issues exactly one update per chain member, adds the
delta to each member's `totalReplies`, and leaves every other record
untouched. -/
theorem decrementTotalReplies_spec (d : Int) :
    ∀ (ids : List Nat) (cs : Nat → Option Comment) (i fuel : Nat),
      Chain cs i ids → ids.Nodup → ids.length ≤ fuel →
      (decrementTotalReplies fuel cs i d).2 = ids ∧
      (∀ j ∈ ids, ∃ c, cs j = some c ∧
        (decrementTotalReplies fuel cs i d).1 j =
          some { c with totalReplies := c.totalReplies + d }) ∧
      (∀ j, j ∉ ids → (decrementTotalReplies fuel cs i d).1 j = cs j) := by
  intro ids
  induction ids with
  | nil =>
    intro cs i fuel hchain _ _
    exact absurd hchain chain_ne_nil
  | cons a rest ih =>
    intro cs i fuel hchain hnodup hlen
    obtain ⟨ha, c, hc, hbranch⟩ := chain_cons_inv hchain
    subst ha
    cases fuel with
    | zero => exact absurd hlen (by simp)
    | succ f =>
      rcases hbranch with ⟨hrest, hp⟩ | ⟨p, hp, hrest⟩
      · subst hrest
        have heq : decrementTotalReplies (f + 1) cs a d =
            (setComment cs a { c with totalReplies := c.totalReplies + d },
              [a]) := by
          simp [decrementTotalReplies, hc, hp]
        rw [heq]
        refine ⟨rfl, ?_, ?_⟩
        · intro j hj
          have hj' : j = a := by simpa using hj
          subst hj'
          exact ⟨c, hc, setComment_self _ _ _⟩
        · intro j hj
          have hj' : j ≠ a := by simpa using hj
          exact setComment_ne _ _ _ _ hj'
      · have ha_rest : a ∉ rest := (List.nodup_cons.mp hnodup).1
        have hnd : rest.Nodup := (List.nodup_cons.mp hnodup).2
        have hlen' : rest.length ≤ f := by
          simp only [List.length_cons] at hlen
          omega
        have hchain1 : Chain
            (setComment cs a { c with totalReplies := c.totalReplies + d })
            p rest :=
          hrest.mono a _ ha_rest
        obtain ⟨hvis, hmem, hframe⟩ :=
          ih (setComment cs a { c with totalReplies := c.totalReplies + d })
            p f hchain1 hnd hlen'
        have heq : decrementTotalReplies (f + 1) cs a d =
            ((decrementTotalReplies f
                (setComment cs a { c with totalReplies := c.totalReplies + d })
                p d).1,
              a :: (decrementTotalReplies f
                (setComment cs a { c with totalReplies := c.totalReplies + d })
                p d).2) := by
          simp [decrementTotalReplies, hc, hp]
        rw [heq]
        refine ⟨by rw [hvis], ?_, ?_⟩
        · intro j hj
          rcases List.mem_cons.mp hj with hj | hj
          · subst hj
            refine ⟨c, hc, ?_⟩
            rw [hframe j ha_rest, setComment_self]
          · have hji : j ≠ a := fun he => ha_rest (he ▸ hj)
            obtain ⟨c', hc', hres⟩ := hmem j hj
            rw [setComment_ne _ _ _ _ hji] at hc'
            exact ⟨c', hc', hres⟩
        · intro j hj
          have hji : j ≠ a := fun he => hj (by simp [he])
          have hjr : j ∉ rest := fun hm => hj (List.mem_cons_of_mem _ hm)
          rw [hframe j hjr, setComment_ne _ _ _ _ hji]

/-- `_incrementalTotalReplies` is `_decrementTotalReplies` with delta 1
(the two source functions are structurally identical up to the delta). -/
theorem incrementalTotalReplies_eq_dec :
    ∀ (fuel : Nat) (cs : Nat → Option Comment) (i : Nat),
      incrementalTotalReplies fuel cs i = decrementTotalReplies fuel cs i 1 := by
  intro fuel
  induction fuel with
  | zero => intro cs i; rfl
  | succ f ih =>
    intro cs i
    cases hci : cs i with
    | none => simp [incrementalTotalReplies, decrementTotalReplies, hci]
    | some c =>
      cases hp : c.parent with
      | none => simp [incrementalTotalReplies, decrementTotalReplies, hci, hp]
      | some p =>
        simp [incrementalTotalReplies, decrementTotalReplies, hci, hp, ih]

/-- The ancestor walk changes only `totalReplies`: every other field of
every record (and the presence of every record) is preserved, with no
hypotheses on the store. -/
theorem decrementTotalReplies_shape (d : Int) :
    ∀ (fuel : Nat) (cs : Nat → Option Comment) (i j : Nat),
      ((decrementTotalReplies fuel cs i d).1 j).map commentShape =
        (cs j).map commentShape := by
  intro fuel
  induction fuel with
  | zero => intro cs i j; rfl
  | succ f ih =>
    intro cs i j
    cases hci : cs i with
    | none => simp [decrementTotalReplies, hci]
    | some c =>
      cases hp : c.parent with
      | none =>
        simp only [decrementTotalReplies, hci, hp]
        by_cases hji : j = i
        · subst hji
          rw [setComment_self, hci]
          simp [commentShape, hp]
        · rw [setComment_ne _ _ _ _ hji]
      | some p =>
        simp only [decrementTotalReplies, hci, hp]
        rw [ih]
        by_cases hji : j = i
        · subst hji
          rw [setComment_self, hci]
          simp [commentShape, hp]
        · rw [setComment_ne _ _ _ _ hji]

/-- Looking up the updated id after `findByIdAndUpdate` returns the
updated document, provided the update does not change `id`. -/
theorem findBlogById_mapBlogById (i : Nat) (f : Blog → Blog)
    (hf : ∀ b, (f b).id = b.id) :
    ∀ bs : List Blog,
      findBlogById (mapBlogById bs i f) i = (findBlogById bs i).map f := by
  intro bs
  induction bs with
  | nil => rfl
  | cons b rest ih =>
    by_cases hb : b.id = i
    · have h1 : (b.id == i) = true := by simpa using hb
      have h2 : ((f b).id == i) = true := by
        rw [hf b]; exact h1
      simp only [findBlogById, mapBlogById, List.map_cons, h1, if_true,
        List.find?, h2]
      rfl
    · have h1 : (b.id == i) = false := by simpa using hb
      simp only [findBlogById, mapBlogById, List.map_cons, h1,
        Bool.false_eq_true, if_false, List.find?]
      exact ih

/-- A slug lookup after `findByIdAndUpdate` finds the same document,
updated when its id matches, provided the update does not change the
slug. -/
theorem findBlogBySlug_mapBlogById (slug : String) (i : Nat) (f : Blog → Blog)
    (hf : ∀ b, (f b).blogId = b.blogId) :
    ∀ bs : List Blog,
      findBlogBySlug (mapBlogById bs i f) slug =
        (findBlogBySlug bs slug).map
          (fun b => if b.id == i then f b else b) := by
  intro bs
  induction bs with
  | nil => rfl
  | cons b rest ih =>
    have hslug : (if b.id == i then f b else b).blogId = b.blogId := by
      by_cases hb : (b.id == i) = true
      · rw [if_pos hb]; exact hf b
      · rw [if_neg hb]
    by_cases hm : (b.blogId == slug) = true
    · have hm' : ((if b.id == i then f b else b).blogId == slug) = true := by
        rw [hslug]; exact hm
      simp only [findBlogBySlug, mapBlogById, List.map_cons, List.find?, hm',
        hm]
      rfl
    · have hm' : ((if b.id == i then f b else b).blogId == slug) = false := by
        rw [hslug]; simpa using hm
      have hmf : (b.blogId == slug) = false := by simpa using hm
      simp only [findBlogBySlug, mapBlogById, List.map_cons, List.find?, hm',
        hmf]
      exact ih

/-- Two successive `findByIdAndUpdate`s on the same id compose,
provided the first does not change `id`. -/
theorem mapBlogById_mapBlogById (i : Nat) (f g : Blog → Blog)
    (hf : ∀ b, (f b).id = b.id) (bs : List Blog) :
    mapBlogById (mapBlogById bs i f) i g =
      mapBlogById bs i (fun b => g (f b)) := by
  simp only [mapBlogById, List.map_map]
  congr 1
  funext b
  by_cases hb : (b.id == i) = true
  · have h2 : ((f b).id == i) = true := by rw [hf b]; exact hb
    simp [Function.comp, hb, h2]
  · simp [Function.comp, hb]

/-- `findByIdAndUpdate` whose update fixes every stored document with
the given id is a no-op. -/
theorem mapBlogById_eq_self (bs : List Blog) (i : Nat) (f : Blog → Blog)
    (h : ∀ b ∈ bs, b.id = i → f b = b) : mapBlogById bs i f = bs := by
  unfold mapBlogById
  have : ∀ b ∈ bs, (if b.id == i then f b else b) = b := by
    intro b hb
    by_cases hbi : (b.id == i) = true
    · rw [if_pos hbi]; exact h b hb (by simpa using hbi)
    · rw [if_neg hbi]
  rw [List.map_congr_left this]
  exact List.map_id bs

/-- In a collection with pairwise distinct `_id`s, two members with the
same `_id` are the same document. -/
theorem blog_eq_of_nodup_id {bs : List Blog}
    (hnodup : (bs.map Blog.id).Nodup) {b1 b2 : Blog}
    (h1 : b1 ∈ bs) (h2 : b2 ∈ bs) (hid : b1.id = b2.id) : b1 = b2 := by
  induction bs with
  | nil => cases h1
  | cons b rest ih =>
    rcases List.mem_cons.mp h1 with e1 | m1 <;>
      rcases List.mem_cons.mp h2 with e2 | m2
    · rw [e1, e2]
    · exfalso
      have : b.id ∉ rest.map Blog.id := (List.nodup_cons.mp hnodup).1
      exact this (e1 ▸ hid ▸ List.mem_map_of_mem Blog.id m2)
    · exfalso
      have : b.id ∉ rest.map Blog.id := (List.nodup_cons.mp hnodup).1
      exact this (e2 ▸ hid.symm ▸ List.mem_map_of_mem Blog.id m1)
    · exact ih (List.nodup_cons.mp hnodup).2 m1 m2

/-- Equality of `commentShape` projections forces the presence bit of
two optional records to agree. -/
theorem isSome_of_shape_eq {o1 o2 : Option Comment}
    (h : o1.map commentShape = o2.map commentShape) :
    o1.isSome = o2.isSome := by
  cases o1 <;> cases o2 <;> simp_all

/-- Storing a record that satisfies the `isReply` / `parent`
biconditional preserves well-formedness. -/
theorem wf_setComment {cs : Nat → Option Comment}
    (hwf : WellFormedComments cs) {c : Comment}
    (hc : c.isReply = true ↔ c.parent.isSome = true) (k : Nat) :
    WellFormedComments (setComment cs k c) := by
  intro i x hx
  by_cases hik : i = k
  · subst hik
    rw [setComment_self] at hx
    cases hx
    exact hc
  · rw [setComment_ne _ _ _ _ hik] at hx
    exact hwf i x hx

/-- Deleting a record preserves well-formedness. -/
theorem wf_removeComment {cs : Nat → Option Comment}
    (hwf : WellFormedComments cs) (k : Nat) :
    WellFormedComments (removeComment cs k) := by
  intro i x hx
  by_cases hik : i = k
  · subst hik
    simp [removeComment] at hx
  · unfold removeComment at hx
    rw [if_neg hik] at hx
    exact hwf i x hx

/-- A store with the same shape projection as a well-formed store is
well-formed. -/
theorem wf_of_shape {cs cs' : Nat → Option Comment}
    (h : ∀ j, (cs' j).map commentShape = (cs j).map commentShape)
    (hwf : WellFormedComments cs) : WellFormedComments cs' := by
  intro i c hc
  have hi := h i
  rw [hc] at hi
  cases hcs : cs i with
  | none => rw [hcs] at hi; simp at hi
  | some c0 =>
    rw [hcs] at hi
    simp only [commentShape, Option.map_some', Option.some.injEq,
      Prod.mk.injEq] at hi
    obtain ⟨-, -, -, -, hir, hpar, -⟩ := hi
    rw [hir, hpar]
    exact hwf i c0 hcs

/-- Equal shape projections force equal `parent` projections. -/
theorem parent_of_shape_eq {o1 o2 : Option Comment}
    (h : o1.map commentShape = o2.map commentShape) :
    o1.map Comment.parent = o2.map Comment.parent := by
  cases o1 <;> cases o2 <;> simp_all [commentShape]

/-- Equal shape projections force equal `isReply` projections. -/
theorem isReply_of_shape_eq {o1 o2 : Option Comment}
    (h : o1.map commentShape = o2.map commentShape) :
    o1.map Comment.isReply = o2.map Comment.isReply := by
  cases o1 <;> cases o2 <;> simp_all [commentShape]

/-- Extensionality for `Blog` (the `likes` map is compared pointwise). -/
theorem blog_ext {b1 b2 : Blog} (h1 : b1.id = b2.id)
    (h2 : b1.blogId = b2.blogId) (h3 : b1.author = b2.author)
    (h4 : b1.isDraft = b2.isDraft) (h5 : b1.activity = b2.activity)
    (h6 : ∀ k, b1.likes k = b2.likes k) : b1 = b2 := by
  obtain ⟨a1, a2, a3, a4, a5, a6⟩ := b1
  obtain ⟨c1, c2, c3, c4, c5, c6⟩ := b2
  have e1 : a1 = c1 := h1
  have e2 : a2 = c2 := h2
  have e3 : a3 = c3 := h3
  have e4 : a4 = c4 := h4
  have e5 : a5 = c5 := h5
  have e6 : a6 = c6 := funext (fun k => h6 k)
  subst e1; subst e2; subst e3; subst e4; subst e5; subst e6
  rfl

/-- Extensionality for `Activity`. -/
theorem activity_ext {x y : Activity} (h1 : x.totalLikes = y.totalLikes)
    (h2 : x.totalReads = y.totalReads)
    (h3 : x.totalComments = y.totalComments)
    (h4 : x.totalParentComments = y.totalParentComments) : x = y := by
  obtain ⟨a1, a2, a3, a4⟩ := x
  obtain ⟨c1, c2, c3, c4⟩ := y
  have e1 : a1 = c1 := h1
  have e2 : a2 = c2 := h2
  have e3 : a3 = c3 := h3
  have e4 : a4 = c4 := h4
  subst e1; subst e2; subst e3; subst e4
  rfl

/-! ### Claim theorems -/

/-- C3: creating a new top-level comment increments the owning blog's
`activity.totalComments` and `activity.totalParentComments` each by
exactly 1, stores the new comment with the schema defaults (`isReply`
false, no `parent`, `totalReplies` 0), and changes no other comment
record (in particular no existing comment's `totalReplies`). -/
theorem createComment_top_level
    (db : DB) (newId blogId blogAuthor : Nat) (content : String)
    (userId : Nat) (b : Blog)
    (hblog : findBlogById db.blogs blogId = some b)
    (hfresh : db.comments newId = none) :
    ∃ db1, createComment db newId blogId blogAuthor content userId = .ok db1 ∧
      db1.comments newId = some
        { blogId := blogId, blogAuthor := blogAuthor, content := content,
          commentedBy := userId, isReply := false, parent := none,
          totalReplies := 0, isEdited := false } ∧
      (∀ j, j ≠ newId → db1.comments j = db.comments j) ∧
      findBlogById db1.blogs blogId = some
        { b with activity :=
            { b.activity with
                totalComments := b.activity.totalComments + 1,
                totalParentComments :=
                  b.activity.totalParentComments + 1 } } := by
  simp only [createComment, hblog]
  refine ⟨_, rfl, ?_, ?_, ?_⟩
  · exact setComment_self _ _ _
  · intro j hj
    exact setComment_ne _ _ _ _ hj
  · have h := findBlogById_mapBlogById blogId
      (fun x => { x with activity :=
        { x.activity with
            totalComments := x.activity.totalComments + 1,
            totalParentComments := x.activity.totalParentComments + 1 } })
      (fun _ => rfl) db.blogs
    rw [hblog, Option.map_some'] at h
    exact h

/-- C1: recording a new reply increments `totalReplies` by exactly 1 on
the target comment and on every ancestor up to and including the
top-level ancestor, increments the owning blog's
`activity.totalComments` by exactly 1 and leaves
`activity.totalParentComments` unchanged (the blog record below changes
only in its `totalComments` field); every other comment is untouched,
and this holds for an arbitrary parent chain `ids`. -/
theorem createReply_increments_ancestor_chain
    (db : DB) (fuel newId commentId : Nat) (content : String) (userId : Nat)
    (target : Comment) (ids : List Nat) (b : Blog)
    (htarget : db.comments commentId = some target)
    (hfresh : db.comments newId = none)
    (hchain : Chain db.comments commentId ids)
    (hnodup : ids.Nodup)
    (hnew : newId ∉ ids)
    (hfuel : ids.length ≤ fuel)
    (hblog : findBlogById db.blogs target.blogId = some b) :
    ∃ db1, createReply db fuel newId commentId content userId = .ok db1 ∧
      (∀ j ∈ ids, ∃ c, db.comments j = some c ∧
        db1.comments j = some { c with totalReplies := c.totalReplies + 1 }) ∧
      (∀ j, j ∉ ids → j ≠ newId → db1.comments j = db.comments j) ∧
      db1.comments newId = some
        { blogId := target.blogId, blogAuthor := target.blogAuthor,
          content := content, commentedBy := userId, isReply := true,
          parent := some commentId, totalReplies := 0, isEdited := false } ∧
      findBlogById db1.blogs target.blogId = some
        { b with activity :=
            { b.activity with
                totalComments := b.activity.totalComments + 1 } } := by
  have hchain0 : Chain
      (setComment db.comments newId
        { blogId := target.blogId, blogAuthor := target.blogAuthor,
          content := content, commentedBy := userId, isReply := true,
          parent := some commentId, totalReplies := 0, isEdited := false })
      commentId ids :=
    hchain.mono newId _ hnew
  obtain ⟨hvis, hmem, hframe⟩ :=
    decrementTotalReplies_spec 1 ids _ commentId fuel hchain0 hnodup hfuel
  simp only [createReply, htarget]
  rw [incrementalTotalReplies_eq_dec]
  refine ⟨_, rfl, ?_, ?_, ?_, ?_⟩
  · intro j hj
    obtain ⟨c, hc0, hres⟩ := hmem j hj
    have hjn : j ≠ newId := fun he => hnew (he ▸ hj)
    rw [setComment_ne _ _ _ _ hjn] at hc0
    exact ⟨c, hc0, hres⟩
  · intro j hj hjn
    have := hframe j hj
    rw [setComment_ne _ _ _ _ hjn] at this
    exact this
  · have := hframe newId hnew
    rw [setComment_self] at this
    exact this
  · have h := findBlogById_mapBlogById target.blogId
      (fun x => { x with activity :=
        { x.activity with
            totalComments := x.activity.totalComments + 1 } })
      (fun _ => rfl) db.blogs
    rw [hblog, Option.map_some'] at h
    exact h

/-- C2: deleting a comment whose pre-deletion `totalReplies` is `n`
applies `decrementBy = -(1 + n)` to every ancestor's `totalReplies`
(when the comment is a reply with a parent) and to the blog's
`activity.totalComments`; `activity.totalParentComments` is decremented
by 1 exactly when the deleted comment was top-level and is unchanged
when it was a reply.  `decrementBy` is computed from the record read
before deletion. -/
theorem deleteCommentById_decrements
    (db : DB) (fuel id userId : Nat) (comment : Comment)
    (hc : db.comments id = some comment)
    (hperm : userId = comment.commentedBy ∨ userId = comment.blogAuthor) :
    (∀ p ids b, comment.isReply = true → comment.parent = some p →
      Chain (removeComment db.comments id) p ids → ids.Nodup →
      ids.length ≤ fuel →
      findBlogById db.blogs comment.blogId = some b →
      ∃ db1, deleteCommentById db fuel id userId = .ok db1 ∧
        db1.comments id = none ∧
        (∀ j ∈ ids, ∃ c, db.comments j = some c ∧
          db1.comments j = some { c with totalReplies :=
            c.totalReplies + -(1 + comment.totalReplies) }) ∧
        (∀ j, j ∉ ids → j ≠ id → db1.comments j = db.comments j) ∧
        findBlogById db1.blogs comment.blogId = some
          { b with activity :=
              { b.activity with totalComments :=
                  b.activity.totalComments + -(1 + comment.totalReplies) } }) ∧
    ((comment.isReply = false ∨ comment.parent = none) →
      ∀ b, findBlogById db.blogs comment.blogId = some b →
      ∃ db1, deleteCommentById db fuel id userId = .ok db1 ∧
        db1.comments id = none ∧
        (∀ j, j ≠ id → db1.comments j = db.comments j) ∧
        findBlogById db1.blogs comment.blogId = some
          { b with activity :=
              { b.activity with
                  totalComments :=
                    b.activity.totalComments + -(1 + comment.totalReplies),
                  totalParentComments :=
                    b.activity.totalParentComments - 1 } }) := by
  have hcond : ¬(userId ≠ comment.commentedBy ∧ userId ≠ comment.blogAuthor) := by
    rcases hperm with h | h
    · exact fun hcon => hcon.1 h
    · exact fun hcon => hcon.2 h
  constructor
  · intro p ids b hir hp hchain hnodup hfuel hblog
    obtain ⟨hvis, hmem, hframe⟩ :=
      decrementTotalReplies_spec (-(1 + comment.totalReplies)) ids
        (removeComment db.comments id) p fuel hchain hnodup hfuel
    have hid_not : id ∉ ids := by
      intro hmemid
      obtain ⟨c, hc0, -⟩ := hmem id hmemid
      simp [removeComment] at hc0
    simp only [deleteCommentById, hc, if_neg hcond, hp, hir, if_pos,
      Option.isSome_some, Bool.and_self, if_true]
    refine ⟨_, rfl, ?_, ?_, ?_, ?_⟩
    · exact (hframe id hid_not).trans (by simp [removeComment])
    · intro j hj
      obtain ⟨c, hc0, hres⟩ := hmem j hj
      have hji : j ≠ id := by
        intro he
        rw [he] at hc0
        simp [removeComment] at hc0
      unfold removeComment at hc0
      rw [if_neg hji] at hc0
      exact ⟨c, hc0, hres⟩
    · intro j hj hji
      exact (hframe j hj).trans (by simp [removeComment, hji])
    · have h := findBlogById_mapBlogById comment.blogId
        (fun x => { x with activity :=
          { x.activity with
              totalComments :=
                x.activity.totalComments + -(1 + comment.totalReplies),
              totalParentComments := x.activity.totalParentComments + 0 } })
        (fun _ => rfl) db.blogs
      rw [hblog, Option.map_some'] at h
      have hrec : ({ b with activity :=
          { b.activity with
              totalComments :=
                b.activity.totalComments + -(1 + comment.totalReplies),
              totalParentComments := b.activity.totalParentComments + 0 } }
            : Blog) =
          { b with activity :=
            { b.activity with totalComments :=
                b.activity.totalComments + -(1 + comment.totalReplies) } } := by
        simp
      rw [hrec] at h
      exact h
  · intro htop b hblog
    have hreduce :
        deleteCommentById db fuel id userId = .ok
          { db with
            comments := removeComment db.comments id,
            blogs := mapBlogById db.blogs comment.blogId (fun x =>
              { x with activity :=
                { x.activity with
                    totalComments :=
                      x.activity.totalComments + -(1 + comment.totalReplies),
                    totalParentComments :=
                      x.activity.totalParentComments + -1 } }) } := by
      rcases htop with hir | hpn
      · cases hpar : comment.parent with
        | none =>
          simp only [deleteCommentById, hc, if_neg hcond, hpar, hir]
          simp
        | some p =>
          simp only [deleteCommentById, hc, if_neg hcond, hpar, hir]
          simp
      · simp only [deleteCommentById, hc, if_neg hcond, hpn]
        simp
    rw [hreduce]
    refine ⟨_, rfl, ?_, ?_, ?_⟩
    · simp [removeComment]
    · intro j hj
      exact if_neg hj
    · have h := findBlogById_mapBlogById comment.blogId
        (fun x => { x with activity :=
          { x.activity with
              totalComments :=
                x.activity.totalComments + -(1 + comment.totalReplies),
              totalParentComments := x.activity.totalParentComments + -1 } })
        (fun _ => rfl) db.blogs
      rw [hblog, Option.map_some'] at h
      have hrec : ({ b with activity :=
          { b.activity with
              totalComments :=
                b.activity.totalComments + -(1 + comment.totalReplies),
              totalParentComments := b.activity.totalParentComments + -1 } }
            : Blog) =
          { b with activity :=
            { b.activity with
                totalComments :=
                  b.activity.totalComments + -(1 + comment.totalReplies),
                totalParentComments :=
                  b.activity.totalParentComments - 1 } } := by
        have : b.activity.totalParentComments + -1 =
            b.activity.totalParentComments - 1 := by omega
        rw [this]
      rw [hrec] at h
      exact h

/-- C6: editing a comment overwrites its content and sets `isEdited`,
and performs no counter propagation: the edited comment's
`totalReplies`, every other comment record, and the whole blog and user
collections are unchanged. -/
theorem updateCommentById_no_propagation
    (db : DB) (id : Nat) (newContent : String) (userId : Nat)
    (comment : Comment)
    (hc : db.comments id = some comment)
    (hperm : userId = comment.commentedBy) :
    ∃ db1, updateCommentById db id newContent userId = .ok db1 ∧
      db1.comments id = some
        { comment with content := newContent, isEdited := true } ∧
      (db1.comments id).map Comment.totalReplies =
        some comment.totalReplies ∧
      (∀ j, j ≠ id → db1.comments j = db.comments j) ∧
      db1.blogs = db.blogs ∧
      db1.users = db.users := by
  have hcond : ¬(userId ≠ comment.commentedBy) := fun h => h hperm
  simp only [updateCommentById, hc, if_neg hcond]
  refine ⟨_, rfl, ?_, ?_, ?_, rfl, rfl⟩
  · exact setComment_self _ _ _
  · exact (congrArg (Option.map Comment.totalReplies)
      (setComment_self _ _ _)).trans rfl
  · intro j hj
    exact setComment_ne _ _ _ _ hj

/-- C7: deleting a comment removes exactly the target record from
comment storage; every other record stays present (same presence bit)
and keeps its `parent` reference, so descendants of the deleted comment
survive with a now-dangling `parent`. -/
theorem deleteCommentById_frame
    (db : DB) (fuel id userId : Nat) (comment : Comment)
    (hc : db.comments id = some comment)
    (hperm : userId = comment.commentedBy ∨ userId = comment.blogAuthor) :
    ∃ db1, deleteCommentById db fuel id userId = .ok db1 ∧
      db1.comments id = none ∧
      (∀ j, j ≠ id → (db1.comments j).isSome = (db.comments j).isSome) ∧
      (∀ j c, j ≠ id → db.comments j = some c →
        ∃ c1, db1.comments j = some c1 ∧ c1.parent = c.parent) := by
  have hcond : ¬(userId ≠ comment.commentedBy ∧
      userId ≠ comment.blogAuthor) := by
    rcases hperm with h | h
    · exact fun hcon => hcon.1 h
    · exact fun hcon => hcon.2 h
  have key : ∀ cs1 : Nat → Option Comment,
      (∀ j, (cs1 j).map commentShape =
        (removeComment db.comments id j).map commentShape) →
      cs1 id = none ∧
      (∀ j, j ≠ id → (cs1 j).isSome = (db.comments j).isSome) ∧
      (∀ j c, j ≠ id → db.comments j = some c →
        ∃ c1, cs1 j = some c1 ∧ c1.parent = c.parent) := by
    intro cs1 hsh
    refine ⟨?_, ?_, ?_⟩
    · have h := hsh id
      simp only [removeComment, if_pos rfl] at h
      cases hcs : cs1 id with
      | none => rfl
      | some c1 => rw [hcs] at h; simp at h
    · intro j hj
      have h := isSome_of_shape_eq (hsh j)
      rw [h]
      simp [removeComment, hj]
    · intro j c hj hcj
      have h := hsh j
      rw [show removeComment db.comments id j = some c by
        simp [removeComment, hj, hcj]] at h
      cases hcs : cs1 j with
      | none => rw [hcs] at h; simp at h
      | some c1 =>
        rw [hcs] at h
        simp only [Option.map_some', Option.some.injEq, commentShape,
          Prod.mk.injEq] at h
        exact ⟨c1, rfl, h.2.2.2.2.2.1⟩
  cases hpar : comment.parent with
  | none =>
    simp only [deleteCommentById, hc, if_neg hcond, hpar]
    exact ⟨_, rfl, key (removeComment db.comments id) (fun j => rfl)⟩
  | some p =>
    by_cases hir : comment.isReply = true
    · simp only [deleteCommentById, hc, if_neg hcond, hpar, if_pos hir]
      exact ⟨_, rfl,
        key _ (fun j => decrementTotalReplies_shape _ fuel _ p j)⟩
    · simp only [deleteCommentById, hc, if_neg hcond, hpar, if_neg hir]
      exact ⟨_, rfl, key (removeComment db.comments id) (fun j => rfl)⟩

/-- C4: the ancestor-chain walks terminate: on a finite acyclic chain
each walk issues exactly one update per ancestor (its lookup list is
exactly the chain) and stops at the first record with no `parent`; in
particular on a comment with no `parent` each walk touches exactly that
record and attempts no further lookup. -/
theorem walk_termination_spec :
    (∀ (cs : Nat → Option Comment) (i : Nat) (c : Comment) (fuel : Nat),
      cs i = some c → c.parent = none → 1 ≤ fuel →
      incrementalTotalReplies fuel cs i =
        (setComment cs i { c with totalReplies := c.totalReplies + 1 },
          [i])) ∧
    (∀ (cs : Nat → Option Comment) (i : Nat) (c : Comment) (fuel : Nat)
        (d : Int),
      cs i = some c → c.parent = none → 1 ≤ fuel →
      decrementTotalReplies fuel cs i d =
        (setComment cs i { c with totalReplies := c.totalReplies + d },
          [i])) ∧
    (∀ (cs : Nat → Option Comment) (i : Nat) (ids : List Nat) (fuel : Nat),
      Chain cs i ids → ids.Nodup → ids.length ≤ fuel →
      (incrementalTotalReplies fuel cs i).2 = ids ∧
      ∀ d : Int, (decrementTotalReplies fuel cs i d).2 = ids) := by
  have hdec : ∀ (cs : Nat → Option Comment) (i : Nat) (c : Comment)
      (fuel : Nat) (d : Int),
      cs i = some c → c.parent = none → 1 ≤ fuel →
      decrementTotalReplies fuel cs i d =
        (setComment cs i { c with totalReplies := c.totalReplies + d },
          [i]) := by
    intro cs i c fuel d hc hp hf
    cases fuel with
    | zero => omega
    | succ f => simp [decrementTotalReplies, hc, hp]
  refine ⟨?_, hdec, ?_⟩
  · intro cs i c fuel hc hp hf
    rw [incrementalTotalReplies_eq_dec]
    exact hdec cs i c fuel 1 hc hp hf
  · intro cs i ids fuel hchain hnodup hfuel
    constructor
    · rw [incrementalTotalReplies_eq_dec]
      exact (decrementTotalReplies_spec 1 ids cs i fuel hchain hnodup
        hfuel).1
    · intro d
      exact (decrementTotalReplies_spec d ids cs i fuel hchain hnodup
        hfuel).1

/-- C5: when the next ancestor lookup misses (the id is absent from the
store) the walks stop silently after updating only the current record —
the resulting store is exactly the one produced when the record's
`parent` reference is absent, and no error value exists on either path
(both walks are total store transformers). -/
theorem walk_missing_ancestor_silent
    (cs : Nat → Option Comment) (i p : Nat) (c : Comment) (fuel : Nat)
    (d : Int)
    (hc : cs i = some c) (hp : c.parent = some p) (hmiss : cs p = none)
    (hfuel : 2 ≤ fuel) :
    incrementalTotalReplies fuel cs i =
      (setComment cs i { c with totalReplies := c.totalReplies + 1 },
        [i, p]) ∧
    decrementTotalReplies fuel cs i d =
      (setComment cs i { c with totalReplies := c.totalReplies + d },
        [i, p]) ∧
    (∀ (cs' : Nat → Option Comment) (i' : Nat) (c' : Comment),
      cs' i' = some c' → c'.parent = none →
      (incrementalTotalReplies fuel cs' i').1 =
        setComment cs' i' { c' with totalReplies := c'.totalReplies + 1 } ∧
      (decrementTotalReplies fuel cs' i' d).1 =
        setComment cs' i' { c' with totalReplies := c'.totalReplies + d }) := by
  have hpi : p ≠ i := by
    intro he
    rw [he, hc] at hmiss
    cases hmiss
  obtain ⟨f, rfl⟩ : ∃ f, fuel = f + 2 := ⟨fuel - 2, by omega⟩
  have hset : ∀ x : Comment, setComment cs i x p = none := by
    intro x
    rw [setComment_ne _ _ _ _ hpi]
    exact hmiss
  refine ⟨?_, ?_, ?_⟩
  · rw [incrementalTotalReplies_eq_dec]
    show decrementTotalReplies (f + 1 + 1) cs i 1 = _
    simp [decrementTotalReplies, hc, hp, hset]
  · show decrementTotalReplies (f + 1 + 1) cs i d = _
    simp [decrementTotalReplies, hc, hp, hset]
  · intro cs' i' c' hc' hp'
    constructor
    · rw [incrementalTotalReplies_eq_dec]
      show (decrementTotalReplies (f + 1 + 1) cs' i' 1).1 = _
      simp [decrementTotalReplies, hc', hp']
    · show (decrementTotalReplies (f + 1 + 1) cs' i' d).1 = _
      simp [decrementTotalReplies, hc', hp']

/-- C8: `isReply` is true iff `parent` is set, for every record produced
by the creation operations, and the biconditional is preserved by every
operation: top-level creation stores `isReply = false`, no `parent`,
`totalReplies = 0`; reply creation stores `isReply = true`,
`parent = some commentId`; deletion, editing, liking and blog deletion
preserve the invariant (none of them changes `isReply` or `parent`). -/
theorem isReply_iff_parent_invariant :
    (∀ (db : DB) (newId blogId blogAuthor : Nat) (content : String)
        (userId : Nat) (db1 : DB),
      createComment db newId blogId blogAuthor content userId = .ok db1 →
      WellFormedComments db.comments →
      WellFormedComments db1.comments ∧
      (db1.comments newId).map Comment.isReply = some false ∧
      (db1.comments newId).map Comment.parent = some none ∧
      (db1.comments newId).map Comment.totalReplies = some 0) ∧
    (∀ (db : DB) (fuel newId commentId : Nat) (content : String)
        (userId : Nat) (db1 : DB),
      createReply db fuel newId commentId content userId = .ok db1 →
      WellFormedComments db.comments →
      WellFormedComments db1.comments ∧
      (db1.comments newId).map Comment.isReply = some true ∧
      (db1.comments newId).map Comment.parent = some (some commentId)) ∧
    (∀ (db : DB) (fuel id userId : Nat) (db1 : DB),
      deleteCommentById db fuel id userId = .ok db1 →
      WellFormedComments db.comments → WellFormedComments db1.comments) ∧
    (∀ (db : DB) (id : Nat) (newContent : String) (userId : Nat) (db1 : DB),
      updateCommentById db id newContent userId = .ok db1 →
      WellFormedComments db.comments → WellFormedComments db1.comments) ∧
    (∀ (db : DB) (slug : String) (userId : Nat) (db1 : DB),
      updateLike db slug userId = .ok db1 →
      WellFormedComments db.comments → WellFormedComments db1.comments) ∧
    (∀ (db : DB) (slug : String) (db1 : DB),
      deleteBlogByBlogId db slug = .ok db1 →
      WellFormedComments db.comments → WellFormedComments db1.comments) := by
  refine ⟨?_, ?_, ?_, ?_, ?_, ?_⟩
  · -- createComment
    intro db newId blogId blogAuthor content userId db1 heq hwf
    unfold createComment at heq
    cases hfb : findBlogById db.blogs blogId with
    | none => rw [hfb] at heq; cases heq
    | some b =>
      rw [hfb] at heq
      injection heq with h
      subst h
      refine ⟨wf_setComment hwf (by simp) newId, ?_, ?_, ?_⟩
      · exact (congrArg (Option.map Comment.isReply)
          (setComment_self _ _ _)).trans rfl
      · exact (congrArg (Option.map Comment.parent)
          (setComment_self _ _ _)).trans rfl
      · exact (congrArg (Option.map Comment.totalReplies)
          (setComment_self _ _ _)).trans rfl
  · -- createReply
    intro db fuel newId commentId content userId db1 heq hwf
    unfold createReply at heq
    cases hct : db.comments commentId with
    | none => rw [hct] at heq; cases heq
    | some target =>
      rw [hct] at heq
      injection heq with h
      subst h
      have hshape : ∀ j,
          (((incrementalTotalReplies fuel
              (setComment db.comments newId
                { blogId := target.blogId, blogAuthor := target.blogAuthor,
                  content := content, commentedBy := userId, isReply := true,
                  parent := some commentId, totalReplies := 0,
                  isEdited := false })
              commentId).1) j).map commentShape =
            ((setComment db.comments newId
              { blogId := target.blogId, blogAuthor := target.blogAuthor,
                content := content, commentedBy := userId, isReply := true,
                parent := some commentId, totalReplies := 0,
                isEdited := false }) j).map commentShape := by
        intro j
        rw [incrementalTotalReplies_eq_dec]
        exact decrementTotalReplies_shape 1 fuel _ commentId j
      refine ⟨?_, ?_, ?_⟩
      · exact wf_of_shape hshape (wf_setComment hwf (by simp) newId)
      · have h := isReply_of_shape_eq (hshape newId)
        rw [setComment_self] at h
        exact h.trans rfl
      · have h := parent_of_shape_eq (hshape newId)
        rw [setComment_self] at h
        exact h.trans rfl
  · -- deleteCommentById
    intro db fuel id userId db1 heq hwf
    cases hct : db.comments id with
    | none =>
      have hred : deleteCommentById db fuel id userId = .error .notFound := by
        simp only [deleteCommentById, hct]
      rw [hred] at heq; cases heq
    | some comment =>
      by_cases hcond : userId ≠ comment.commentedBy ∧
          userId ≠ comment.blogAuthor
      · have hred : deleteCommentById db fuel id userId =
            .error .forbidden := by
          simp only [deleteCommentById, hct, if_pos hcond]
        rw [hred] at heq; cases heq
      · have key : ∃ db2, deleteCommentById db fuel id userId = .ok db2 ∧
            WellFormedComments db2.comments := by
          cases hpar : comment.parent with
          | none =>
            simp only [deleteCommentById, hct, if_neg hcond, hpar]
            exact ⟨_, rfl, wf_removeComment hwf id⟩
          | some p =>
            by_cases hir : comment.isReply = true
            · simp only [deleteCommentById, hct, if_neg hcond, hpar,
                if_pos hir]
              exact ⟨_, rfl, wf_of_shape
                (fun j => decrementTotalReplies_shape _ fuel _ p j)
                (wf_removeComment hwf id)⟩
            · simp only [deleteCommentById, hct, if_neg hcond, hpar,
                if_neg hir]
              exact ⟨_, rfl, wf_removeComment hwf id⟩
        obtain ⟨db2, hred, hwf2⟩ := key
        rw [hred] at heq
        injection heq with h
        subst h
        exact hwf2
  · -- updateCommentById
    intro db id newContent userId db1 heq hwf
    cases hct : db.comments id with
    | none =>
      have hred : updateCommentById db id newContent userId =
          .error .notFound := by
        simp only [updateCommentById, hct]
      rw [hred] at heq; cases heq
    | some comment =>
      by_cases hcond : userId ≠ comment.commentedBy
      · have hred : updateCommentById db id newContent userId =
            .error .forbidden := by
          simp only [updateCommentById, hct, if_pos hcond]
        rw [hred] at heq; cases heq
      · have key : ∃ db2, updateCommentById db id newContent userId =
            .ok db2 ∧ WellFormedComments db2.comments := by
          simp only [updateCommentById, hct, if_neg hcond]
          exact ⟨_, rfl, wf_setComment hwf
            (show ({ comment with content := newContent, isEdited := true }
                : Comment).isReply = true ↔
              ({ comment with content := newContent, isEdited := true }
                : Comment).parent.isSome = true from hwf id comment hct) id⟩
        obtain ⟨db2, hred, hwf2⟩ := key
        rw [hred] at heq
        injection heq with h
        subst h
        exact hwf2
  · -- updateLike
    intro db slug userId db1 heq hwf
    cases hfb : findBlogBySlug db.blogs slug with
    | none =>
      have hred : updateLike db slug userId = .error .notFound := by
        simp only [updateLike, hfb]
      rw [hred] at heq; cases heq
    | some blog =>
      have key : ∃ db2, updateLike db slug userId = .ok db2 ∧
          WellFormedComments db2.comments := by
        simp only [updateLike, hfb]
        exact ⟨_, rfl, hwf⟩
      obtain ⟨db2, hred, hwf2⟩ := key
      rw [hred] at heq
      injection heq with h
      subst h
      exact hwf2
  · -- deleteBlogByBlogId
    intro db slug db1 heq hwf
    cases hfb : findBlogBySlug db.blogs slug with
    | none =>
      have hred : deleteBlogByBlogId db slug = .error .notFound := by
        simp only [deleteBlogByBlogId, hfb]
      rw [hred] at heq; cases heq
    | some blog =>
      cases hu : db.users blog.author with
      | none =>
        have hred : deleteBlogByBlogId db slug = .error .internal := by
          simp only [deleteBlogByBlogId, hfb, hu]
        rw [hred] at heq; cases heq
      | some u =>
        have key : ∃ db2, deleteBlogByBlogId db slug = .ok db2 ∧
            WellFormedComments db2.comments := by
          simp only [deleteBlogByBlogId, hfb, hu]
          refine ⟨_, rfl, ?_⟩
          intro i c hcl
          have hcl2 : deleteManyByBlogId db.comments blog.id i = some c :=
            hcl
          unfold deleteManyByBlogId at hcl2
          cases hdc : db.comments i with
          | none => rw [hdc] at hcl2; cases hcl2
          | some c0 =>
            rw [hdc] at hcl2
            have hcl3 : (if c0.blogId = blog.id then none else some c0) =
                some c := hcl2
            by_cases hbi : c0.blogId = blog.id
            · rw [if_pos hbi] at hcl3; cases hcl3
            · rw [if_neg hbi] at hcl3
              injection hcl3 with h2
              subst h2
              exact hwf i _ hdc
        obtain ⟨db2, hred, hwf2⟩ := key
        rw [hred] at heq
        injection heq with h
        subst h
        exact hwf2

/-- C9: deleting a blog bulk-deletes every comment and reply whose
`blogId` references the deleted blog's `_id` from comment storage; no
comment of that blog survives, and comments of other blogs are
untouched. -/
theorem deleteBlogByBlogId_cascades
    (db : DB) (slug : String) (blog : Blog) (u : User)
    (hfind : findBlogBySlug db.blogs slug = some blog)
    (hu : db.users blog.author = some u) :
    ∃ db1, deleteBlogByBlogId db slug = .ok db1 ∧
      (∀ j c, db1.comments j = some c →
        c.blogId ≠ blog.id ∧ db.comments j = some c) ∧
      (∀ j c, db.comments j = some c → c.blogId = blog.id →
        db1.comments j = none) ∧
      (∀ j c, db.comments j = some c → c.blogId ≠ blog.id →
        db1.comments j = some c) := by
  simp only [deleteBlogByBlogId, hfind, hu]
  refine ⟨_, rfl, ?_, ?_, ?_⟩
  · intro j c hcl
    have hcl2 : deleteManyByBlogId db.comments blog.id j = some c := hcl
    unfold deleteManyByBlogId at hcl2
    cases hdc : db.comments j with
    | none => rw [hdc] at hcl2; cases hcl2
    | some c0 =>
      rw [hdc] at hcl2
      have hcl3 : (if c0.blogId = blog.id then none else some c0) =
          some c := hcl2
      by_cases hbi : c0.blogId = blog.id
      · rw [if_pos hbi] at hcl3; cases hcl3
      · rw [if_neg hbi] at hcl3
        injection hcl3 with h2
        subst h2
        exact ⟨hbi, rfl⟩
  · intro j c hdc hbi
    show deleteManyByBlogId db.comments blog.id j = none
    unfold deleteManyByBlogId
    rw [hdc]
    show (if c.blogId = blog.id then none else some c) = none
    rw [if_pos hbi]
  · intro j c hdc hbi
    show deleteManyByBlogId db.comments blog.id j = some c
    unfold deleteManyByBlogId
    rw [hdc]
    show (if c.blogId = blog.id then none else some c) = some c
    rw [if_neg hbi]

/-- C10: the blog like operation is an involution per user: one
invocation toggles the user's membership in the blog's likes map and
adjusts `activity.totalLikes` by +1 (user absent) or -1 (user present),
and two consecutive invocations by the same user restore the likes map
and `totalLikes` (indeed the whole database) to their original values.
The hypotheses say the store is reachable: `_id`s are unique and the
likes map stores no `false` entries (the operation itself only ever
stores `true`). -/
theorem updateLike_involution
    (db : DB) (slug : String) (userId : Nat) (blog : Blog)
    (hfind : findBlogBySlug db.blogs slug = some blog)
    (hnodup : (db.blogs.map Blog.id).Nodup)
    (hall : ∀ u, blog.likes u ≠ some false) :
    ∃ db1 blog1, updateLike db slug userId = .ok db1 ∧
      findBlogBySlug db1.blogs slug = some blog1 ∧
      (blog.likes userId = none →
        blog1.likes userId = some true ∧
        blog1.activity.totalLikes = blog.activity.totalLikes + 1) ∧
      (blog.likes userId = some true →
        blog1.likes userId = none ∧
        blog1.activity.totalLikes = blog.activity.totalLikes - 1) ∧
      (∀ k, k ≠ userId → blog1.likes k = blog.likes k) ∧
      updateLike db1 slug userId = .ok db := by
  have hblog_mem : blog ∈ db.blogs := List.mem_of_find?_eq_some hfind
  have huniq : ∀ b ∈ db.blogs, b.id = blog.id → b = blog := fun b hb hid =>
    blog_eq_of_nodup_id hnodup hb hblog_mem hid
  have hcases : blog.likes userId = none ∨ blog.likes userId = some true := by
    cases h : blog.likes userId with
    | none => exact Or.inl rfl
    | some v =>
      cases v with
      | false => exact absurd h (hall userId)
      | true => exact Or.inr rfl
  rcases hcases with hnone | hsome
  · -- user not present: like then unlike
    have hred1 : updateLike db slug userId = .ok
        { db with blogs := mapBlogById db.blogs blog.id (fun b =>
            { b with
              likes := fun k => if k = userId then some true
                else blog.likes k,
              activity := { b.activity with
                totalLikes := b.activity.totalLikes + 1 } }) } := by
      simp [updateLike, hfind, hnone]
    have hfind1 : findBlogBySlug
        (mapBlogById db.blogs blog.id (fun b =>
          { b with
            likes := fun k => if k = userId then some true
              else blog.likes k,
            activity := { b.activity with
              totalLikes := b.activity.totalLikes + 1 } })) slug =
        some { blog with
          likes := fun k => if k = userId then some true else blog.likes k,
          activity := { blog.activity with
            totalLikes := blog.activity.totalLikes + 1 } } := by
      have e := findBlogBySlug_mapBlogById slug blog.id
        (fun b => { b with
          likes := fun k => if k = userId then some true else blog.likes k,
          activity := { b.activity with
            totalLikes := b.activity.totalLikes + 1 } })
        (fun _ => rfl) db.blogs
      rw [hfind, Option.map_some'] at e
      simp only [beq_self_eq_true, if_true] at e
      exact e
    refine ⟨_, _, hred1, hfind1, ?_, ?_, ?_, ?_⟩
    · intro _
      constructor
      · show (if userId = userId then some true else blog.likes userId) =
          some true
        rw [if_pos rfl]
      · rfl
    · intro hcontra
      rw [hnone] at hcontra
      cases hcontra
    · intro k hk
      show (if k = userId then some true else blog.likes k) = blog.likes k
      rw [if_neg hk]
    · -- second invocation restores
      have hlikes1 : ((fun k => if k = userId then some true
          else blog.likes k) userId) = some true := if_pos rfl
      have hred2 : updateLike
          { db with blogs := mapBlogById db.blogs blog.id (fun b =>
              { b with
                likes := fun k => if k = userId then some true
                  else blog.likes k,
                activity := { b.activity with
                  totalLikes := b.activity.totalLikes + 1 } }) }
          slug userId = .ok db := by
        simp only [updateLike, hfind1, if_true, Option.getD_some,
          eq_self_iff_true]
        rw [mapBlogById_mapBlogById blog.id]
        · rw [mapBlogById_eq_self]
          intro b hb hid
          rw [huniq b hb hid]
          refine blog_ext rfl rfl rfl rfl ?_ ?_
          · refine activity_ext ?_ rfl rfl rfl
            show blog.activity.totalLikes + 1 + -1 = blog.activity.totalLikes
            omega
          · intro k
            by_cases hk : k = userId
            · subst hk
              show (if k = k then none
                else if k = k then some true else blog.likes k) =
                  blog.likes k
              rw [if_pos rfl, hnone]
            · show (if k = userId then none
                else if k = userId then some true else blog.likes k) =
                  blog.likes k
              rw [if_neg hk, if_neg hk]
        · intro b
          rfl
      exact hred2
  · -- user present: unlike then like
    have hred1 : updateLike db slug userId = .ok
        { db with blogs := mapBlogById db.blogs blog.id (fun b =>
            { b with
              likes := fun k => if k = userId then none else blog.likes k,
              activity := { b.activity with
                totalLikes := b.activity.totalLikes + -1 } }) } := by
      simp [updateLike, hfind, hsome]
    have hfind1 : findBlogBySlug
        (mapBlogById db.blogs blog.id (fun b =>
          { b with
            likes := fun k => if k = userId then none else blog.likes k,
            activity := { b.activity with
              totalLikes := b.activity.totalLikes + -1 } })) slug =
        some { blog with
          likes := fun k => if k = userId then none else blog.likes k,
          activity := { blog.activity with
            totalLikes := blog.activity.totalLikes + -1 } } := by
      have e := findBlogBySlug_mapBlogById slug blog.id
        (fun b => { b with
          likes := fun k => if k = userId then none else blog.likes k,
          activity := { b.activity with
            totalLikes := b.activity.totalLikes + -1 } })
        (fun _ => rfl) db.blogs
      rw [hfind, Option.map_some'] at e
      simp only [beq_self_eq_true, if_true] at e
      exact e
    refine ⟨_, _, hred1, hfind1, ?_, ?_, ?_, ?_⟩
    · intro hcontra
      rw [hsome] at hcontra
      cases hcontra
    · intro _
      constructor
      · show (if userId = userId then none else blog.likes userId) = none
        rw [if_pos rfl]
      · show blog.activity.totalLikes + -1 = blog.activity.totalLikes - 1
        omega
    · intro k hk
      show (if k = userId then none else blog.likes k) = blog.likes k
      rw [if_neg hk]
    · -- second invocation restores
      have hred2 : updateLike
          { db with blogs := mapBlogById db.blogs blog.id (fun b =>
              { b with
                likes := fun k => if k = userId then none
                  else blog.likes k,
                activity := { b.activity with
                  totalLikes := b.activity.totalLikes + -1 } }) }
          slug userId = .ok db := by
        simp only [updateLike, hfind1, if_true, Option.getD_none,
          Bool.false_eq_true, if_false, eq_self_iff_true]
        rw [mapBlogById_mapBlogById blog.id]
        · rw [mapBlogById_eq_self]
          intro b hb hid
          rw [huniq b hb hid]
          refine blog_ext rfl rfl rfl rfl ?_ ?_
          · refine activity_ext ?_ rfl rfl rfl
            show blog.activity.totalLikes + -1 + 1 =
              blog.activity.totalLikes
            omega
          · intro k
            by_cases hk : k = userId
            · subst hk
              show (if k = k then some true
                else if k = k then none else blog.likes k) = blog.likes k
              rw [if_pos rfl, hsome]
            · show (if k = userId then some true
                else if k = userId then none else blog.likes k) =
                  blog.likes k
              rw [if_neg hk, if_neg hk]
        · intro b
          rfl
      exact hred2

/-! ### Witnesses -/

/-- Witness for C1 on the concrete three-level chain: replying to
comment 3 (chain 3 → 2 → 1) bumps all three counters and the blog. -/
theorem createReply_increments_ancestor_chain_witness :
    dbW.comments 3 = some cC ∧ dbW.comments 4 = none ∧
    Chain dbW.comments 3 [3, 2, 1] ∧ ([3, 2, 1] : List Nat).Nodup ∧
    (4 : Nat) ∉ ([3, 2, 1] : List Nat) ∧
    ([3, 2, 1] : List Nat).length ≤ 3 ∧
    findBlogById dbW.blogs 10 = some blogW ∧
    (∃ db1, createReply dbW 3 4 3 "d" 9 = .ok db1 ∧
      (∀ j ∈ ([3, 2, 1] : List Nat), ∃ c, dbW.comments j = some c ∧
        db1.comments j = some { c with totalReplies := c.totalReplies + 1 }) ∧
      (∀ j, j ∉ ([3, 2, 1] : List Nat) → j ≠ 4 →
        db1.comments j = dbW.comments j) ∧
      db1.comments 4 = some
        { blogId := 10, blogAuthor := 7, content := "d", commentedBy := 9,
          isReply := true, parent := some 3, totalReplies := 0,
          isEdited := false } ∧
      findBlogById db1.blogs 10 = some
        { blogW with activity := { blogW.activity with
            totalComments := blogW.activity.totalComments + 1 } }) := by
  have hchain : Chain dbW.comments 3 [3, 2, 1] :=
    Chain.cons 3 cC 2 [2, 1] rfl rfl
      (Chain.cons 2 cB 1 [1] rfl rfl (Chain.last 1 cA rfl rfl))
  exact ⟨rfl, rfl, hchain, by decide, by decide, by decide, rfl,
    createReply_increments_ancestor_chain dbW 3 4 3 "d" 9 cC [3, 2, 1]
      blogW rfl rfl hchain (by decide) (by decide) (by decide) rfl⟩

/-- Witness for C3: creating a top-level comment on the concrete blog. -/
theorem createComment_top_level_witness :
    findBlogById dbW.blogs 10 = some blogW ∧ dbW.comments 4 = none ∧
    (∃ db1, createComment dbW 4 10 7 "x" 9 = .ok db1 ∧
      db1.comments 4 = some
        { blogId := 10, blogAuthor := 7, content := "x", commentedBy := 9,
          isReply := false, parent := none, totalReplies := 0,
          isEdited := false } ∧
      (∀ j, j ≠ 4 → db1.comments j = dbW.comments j) ∧
      findBlogById db1.blogs 10 = some
        { blogW with activity := { blogW.activity with
            totalComments := blogW.activity.totalComments + 1,
            totalParentComments :=
              blogW.activity.totalParentComments + 1 } }) :=
  ⟨rfl, rfl, createComment_top_level dbW 4 10 7 "x" 9 blogW rfl rfl⟩

/-- Witness for C2: deleting reply 2 (`totalReplies` 1, parent 1) as its
author applies `decrementBy = -2` to ancestor 1 and to the blog, leaving
`totalParentComments` unchanged. -/
theorem deleteCommentById_decrements_witness :
    dbW.comments 2 = some cB ∧
    (5 = cB.commentedBy ∨ 5 = cB.blogAuthor) ∧
    cB.isReply = true ∧ cB.parent = some 1 ∧
    Chain (removeComment dbW.comments 2) 1 [1] ∧
    ([1] : List Nat).Nodup ∧ ([1] : List Nat).length ≤ 3 ∧
    findBlogById dbW.blogs 10 = some blogW ∧
    (∃ db1, deleteCommentById dbW 3 2 5 = .ok db1 ∧
      db1.comments 2 = none ∧
      (∀ j ∈ ([1] : List Nat), ∃ c, dbW.comments j = some c ∧
        db1.comments j = some { c with totalReplies :=
          c.totalReplies + -(1 + cB.totalReplies) }) ∧
      (∀ j, j ∉ ([1] : List Nat) → j ≠ 2 →
        db1.comments j = dbW.comments j) ∧
      findBlogById db1.blogs 10 = some
        { blogW with activity := { blogW.activity with
            totalComments :=
              blogW.activity.totalComments + -(1 + cB.totalReplies) } }) := by
  have hchain : Chain (removeComment dbW.comments 2) 1 [1] :=
    Chain.last 1 cA rfl rfl
  exact ⟨rfl, Or.inl rfl, rfl, rfl, hchain, by decide, by decide, rfl,
    (deleteCommentById_decrements dbW 3 2 5 cB rfl (Or.inl rfl)).1
      1 [1] blogW rfl rfl hchain (by decide) (by decide) rfl⟩

/-- Witness for C6: the author of comment 3 edits it; counters and the
rest of the database are untouched. -/
theorem updateCommentById_no_propagation_witness :
    dbW.comments 3 = some cC ∧ (6 = cC.commentedBy) ∧
    (∃ db1, updateCommentById dbW 3 "edited" 6 = .ok db1 ∧
      db1.comments 3 = some
        { cC with content := "edited", isEdited := true } ∧
      (db1.comments 3).map Comment.totalReplies = some cC.totalReplies ∧
      (∀ j, j ≠ 3 → db1.comments j = dbW.comments j) ∧
      db1.blogs = dbW.blogs ∧
      db1.users = dbW.users) :=
  ⟨rfl, rfl, updateCommentById_no_propagation dbW 3 "edited" 6 cC rfl rfl⟩

/-- Witness for C7: deleting reply 2 removes exactly record 2; record 3
(a descendant) stays present and keeps its dangling `parent = 2`. -/
theorem deleteCommentById_frame_witness :
    dbW.comments 2 = some cB ∧
    (5 = cB.commentedBy ∨ 5 = cB.blogAuthor) ∧
    (∃ db1, deleteCommentById dbW 3 2 5 = .ok db1 ∧
      db1.comments 2 = none ∧
      (∀ j, j ≠ 2 → (db1.comments j).isSome = (dbW.comments j).isSome) ∧
      (∀ j c, j ≠ 2 → dbW.comments j = some c →
        ∃ c1, db1.comments j = some c1 ∧ c1.parent = c.parent)) :=
  ⟨rfl, Or.inl rfl, deleteCommentById_frame dbW 3 2 5 cB rfl (Or.inl rfl)⟩

/-- Witness for C4: on the concrete three-level chain both walks visit
exactly [3, 2, 1]; on top-level comment 1 both walks stop after the
single update. -/
theorem walk_termination_spec_witness :
    dbW.comments 1 = some cA ∧ cA.parent = none ∧ (1 : Nat) ≤ 3 ∧
    Chain dbW.comments 3 [3, 2, 1] ∧ ([3, 2, 1] : List Nat).Nodup ∧
    ([3, 2, 1] : List Nat).length ≤ 3 ∧
    incrementalTotalReplies 3 dbW.comments 1 =
      (setComment dbW.comments 1
        { cA with totalReplies := cA.totalReplies + 1 }, [1]) ∧
    decrementTotalReplies 3 dbW.comments 1 (-2) =
      (setComment dbW.comments 1
        { cA with totalReplies := cA.totalReplies + -2 }, [1]) ∧
    (incrementalTotalReplies 3 dbW.comments 3).2 = [3, 2, 1] ∧
    (decrementTotalReplies 3 dbW.comments 3 (-2)).2 = [3, 2, 1] := by
  have hchain : Chain dbW.comments 3 [3, 2, 1] :=
    Chain.cons 3 cC 2 [2, 1] rfl rfl
      (Chain.cons 2 cB 1 [1] rfl rfl (Chain.last 1 cA rfl rfl))
  refine ⟨rfl, rfl, by decide, hchain, by decide, by decide, ?_, ?_, ?_, ?_⟩
  · exact walk_termination_spec.1 dbW.comments 1 cA 3 rfl rfl (by decide)
  · exact walk_termination_spec.2.1 dbW.comments 1 cA 3 (-2) rfl rfl
      (by decide)
  · exact (walk_termination_spec.2.2 dbW.comments 3 [3, 2, 1] 3 hchain
      (by decide) (by decide)).1
  · exact (walk_termination_spec.2.2 dbW.comments 3 [3, 2, 1] 3 hchain
      (by decide) (by decide)).2 (-2)

/-- Witness for C5: comment 8 has `parent = 99` but id 99 is missing
from the store; both walks update only record 8 and stop. -/
theorem walk_missing_ancestor_silent_witness :
    csD 8 = some cD ∧ cD.parent = some 99 ∧ csD 99 = none ∧
    (2 : Nat) ≤ 2 ∧
    (incrementalTotalReplies 2 csD 8 =
      (setComment csD 8 { cD with totalReplies := cD.totalReplies + 1 },
        [8, 99]) ∧
    decrementTotalReplies 2 csD 8 (-2) =
      (setComment csD 8 { cD with totalReplies := cD.totalReplies + -2 },
        [8, 99]) ∧
    (∀ (cs1 : Nat → Option Comment) (i1 : Nat) (c1 : Comment),
      cs1 i1 = some c1 → c1.parent = none →
      (incrementalTotalReplies 2 cs1 i1).1 =
        setComment cs1 i1 { c1 with totalReplies := c1.totalReplies + 1 } ∧
      (decrementTotalReplies 2 cs1 i1 (-2)).1 =
        setComment cs1 i1
          { c1 with totalReplies := c1.totalReplies + -2 })) :=
  ⟨rfl, rfl, rfl, by decide,
    walk_missing_ancestor_silent csD 8 99 cD 2 (-2) rfl rfl rfl (by decide)⟩

/-- Witness for C8: the concrete store is well-formed and creating a
top-level comment on it preserves well-formedness and stores the default
record. -/
theorem isReply_iff_parent_invariant_witness :
    WellFormedComments dbW.comments ∧
    (∃ db1, createComment dbW 4 10 7 "x" 9 = .ok db1 ∧
      (WellFormedComments db1.comments ∧
        (db1.comments 4).map Comment.isReply = some false ∧
        (db1.comments 4).map Comment.parent = some none ∧
        (db1.comments 4).map Comment.totalReplies = some 0)) := by
  have hwf : WellFormedComments dbW.comments := by
    intro i c hc
    have hc2 : csW i = some c := hc
    unfold csW at hc2
    by_cases h1 : i = 1
    · rw [if_pos h1] at hc2
      injection hc2 with h
      subst h
      simp [cA]
    · rw [if_neg h1] at hc2
      by_cases h2 : i = 2
      · rw [if_pos h2] at hc2
        injection hc2 with h
        subst h
        simp [cB]
      · rw [if_neg h2] at hc2
        by_cases h3 : i = 3
        · rw [if_pos h3] at hc2
          injection hc2 with h
          subst h
          simp [cC]
        · rw [if_neg h3] at hc2
          cases hc2
  exact ⟨hwf, _, rfl,
    isReply_iff_parent_invariant.1 dbW 4 10 7 "x" 9 _ rfl hwf⟩

/-- Witness for C9: deleting the concrete blog removes comments 1, 2, 3
(all referencing blog `_id` 10) and nothing else. -/
theorem deleteBlogByBlogId_cascades_witness :
    findBlogBySlug dbW.blogs "travel" = some blogW ∧
    dbW.users blogW.author = some userW ∧
    (∃ db1, deleteBlogByBlogId dbW "travel" = .ok db1 ∧
      (∀ j c, db1.comments j = some c →
        c.blogId ≠ blogW.id ∧ dbW.comments j = some c) ∧
      (∀ j c, dbW.comments j = some c → c.blogId = blogW.id →
        db1.comments j = none) ∧
      (∀ j c, dbW.comments j = some c → c.blogId ≠ blogW.id →
        db1.comments j = some c)) :=
  ⟨rfl, rfl, deleteBlogByBlogId_cascades dbW "travel" blogW userW rfl rfl⟩

/-- Witness for C10: user 42 likes then unlikes the concrete blog; the
database returns to its original state. -/
theorem updateLike_involution_witness :
    findBlogBySlug dbW.blogs "travel" = some blogW ∧
    (dbW.blogs.map Blog.id).Nodup ∧
    (∀ u, blogW.likes u ≠ some false) ∧
    (∃ db1 blog1, updateLike dbW "travel" 42 = .ok db1 ∧
      findBlogBySlug db1.blogs "travel" = some blog1 ∧
      (blogW.likes 42 = none →
        blog1.likes 42 = some true ∧
        blog1.activity.totalLikes = blogW.activity.totalLikes + 1) ∧
      (blogW.likes 42 = some true →
        blog1.likes 42 = none ∧
        blog1.activity.totalLikes = blogW.activity.totalLikes - 1) ∧
      (∀ k, k ≠ 42 → blog1.likes k = blogW.likes k) ∧
      updateLike db1 "travel" 42 = .ok dbW) := by
  have hall : ∀ u, blogW.likes u ≠ some false := by
    intro u h
    exact Option.noConfusion h
  exact ⟨rfl, by decide, hall,
    updateLike_involution dbW "travel" 42 blogW rfl (by decide) hall⟩

end BlogApp
